import Mathlib

/-!
Shallow embedding of the multi-channel paginated aggregation engine of the
crossd_metrics repository (src/crossd_metrics), together with proofs about
the claims of its specification.

The embedding follows the Python source:
* `RTree` models the untyped result trees (JSON-like values) that are
  merged by `utils.merge_dicts`;
* `mergeVal` / `mergeFields` / `merge_dicts` model `utils.merge_dicts`;
* `simple_pagination` and `since_filter` model `utils.simple_pagination`
  and `Repository.__since_filter`;
* `handle_rate_limit_wake` models the timing behaviour of
  `utils.handle_rate_limit`;
* `execute_page_rec` models `GraphRequest.__execute_page` (error handling:
  chunked-encoding retries, 403/429 throttling, dependencyGraphManifests
  timeouts);
* `graphExecute` / `graphAccum` / `bumpRL` model the pagination driver loop
  of `GraphRequest.execute` including the rate-limit counter accumulation;
* `Channel` / `runDrain` model the task queues with shutdown semantics used
  by `RestRequest.__execute` and friends (Python `queue.Queue` with
  `shutdown()`);
* `clone_execute` models `CloneRequest.__execute`.
-/

namespace CrossdMetrics

/-- A result tree: the untyped nested structure of string-keyed maps,
ordered sequences, and scalars (null, bool, number, string) that
`merge_dicts` operates on.  Maps are modelled as association lists in
insertion order, mirroring Python's insertion-ordered `dict`. -/
inductive RTree where
  | null : RTree
  | bool (b : Bool) : RTree
  | num (n : Int) : RTree
  | str (s : String) : RTree
  | arr (xs : List RTree) : RTree
  | obj (fields : List (String × RTree)) : RTree
/-- Dictionary lookup (`merged[key]`, `key in merged`): the value of the
first entry with the given key, if any. -/
def getField : List (String × RTree) → String → Option RTree
  | [], _ => none
  | (k2, v) :: rest, k => if k = k2 then some v else getField rest k

mutual

/-- One key's merge step of `utils.merge_dicts` (lines 76-93): if both
values are dicts they are merged recursively, if both are lists they are
concatenated, in every other case (scalars, or a kind mismatch such as
dict vs. list or dict vs. None) the incoming value overwrites the old
one. -/
def mergeVal : RTree → RTree → RTree
  | RTree.obj m, RTree.obj n =>
      RTree.obj
        ((m.attach.map (fun p => (p.1.1, mergeWithKey p.1.2 p.1.1 n))) ++
          n.filter (fun q => (getField m q.1).isNone))
  | RTree.arr xs, RTree.arr ys => RTree.arr (xs ++ ys)
  | _, b => b
termination_by a b => sizeOf a + sizeOf b
decreasing_by
  have hm : sizeOf p.1 < sizeOf m := List.sizeOf_lt_of_mem p.2
  have h2 : sizeOf p.1.2 ≤ sizeOf p.1 := by
    cases p.1 with
    | mk a b => simp only [Prod.mk.sizeOf_spec]; omega
  simp_wf
  omega

/-- Helper fusing the lookup `new[key]` with the per-key merge: walks the
incoming dict; on the first entry with the given key it merges the old
value with that entry's value, and if the key is absent it keeps the old
value. -/
def mergeWithKey (v : RTree) (k : String) : List (String × RTree) → RTree
  | [] => v
  | (k2, w) :: rest => if k = k2 then mergeVal v w else mergeWithKey v k rest
termination_by l => sizeOf v + sizeOf l
decreasing_by
  all_goals simp_wf
  all_goals omega

end

/-- The effect of one `merge_dicts` pass over a pair of dicts
(`utils.merge_dicts` lines 71-93): every key of the original dict keeps
its position, merged with the incoming value when the key is present in
both; the keys only present in the incoming dict are appended at the end
in their order.  (On Python dicts, whose keys are unique, this is exactly
the source's in-place update loop.) -/
def mergeFields (m n : List (String × RTree)) : List (String × RTree) :=
  (m.map (fun p => (p.1, mergeWithKey p.2 p.1 n))) ++
    n.filter (fun q => (getField m q.1).isNone)

/-- `utils.merge_dicts(orig, *args)` (lines 55-94): starts from `orig or {}`
and folds every further dict (with `None` coerced to `{}`) into the
accumulator. -/
def merge_dicts (orig : Option (List (String × RTree)))
    (args : List (Option (List (String × RTree)))) : List (String × RTree) :=
  args.foldl (fun merged new => mergeFields merged (new.getD [])) (orig.getD [])

mutual

/-- Kind-compatibility of two result trees: both are maps (with
recursively compatible values at every key they share), both are
sequences, or both are scalars.  This is the side condition under which
the deep-merge of `utils.merge_dicts` is associative; `merge_dicts` never
inspects it, and merging kind-incompatible trees falls back to
"incoming wins", which is where associativity breaks. -/
def compatB : RTree → RTree → Bool
  | RTree.obj m, RTree.obj n => m.attach.all (fun p => compatWithKey p.1.2 p.1.1 n)
  | RTree.arr _, RTree.arr _ => true
  | RTree.obj _, _ => false
  | _, RTree.obj _ => false
  | RTree.arr _, _ => false
  | _, RTree.arr _ => false
  | _, _ => true
termination_by a b => sizeOf a + sizeOf b
decreasing_by
  have hm : sizeOf p.1 < sizeOf m := List.sizeOf_lt_of_mem p.2
  have h2 : sizeOf p.1.2 ≤ sizeOf p.1 := by
    cases p.1 with
    | mk a b => simp only [Prod.mk.sizeOf_spec]; omega
  simp_wf
  omega

/-- Compatibility of a value with the value stored under a key of a dict
(compatible when the key is absent). -/
def compatWithKey (v : RTree) (k : String) : List (String × RTree) → Bool
  | [] => true
  | (k2, w) :: rest => if k = k2 then compatB v w else compatWithKey v k rest
termination_by l => sizeOf v + sizeOf l
decreasing_by
  all_goals simp_wf
  all_goals omega

end


/-- One step of a Python subscript selector `selection[elem]`: a string
key indexes a dict, an integer indexes a list. -/
inductive PathKey where
  | field (s : String) : PathKey
  | idx (i : Int) : PathKey

/-- Python list indexing `xs[i]` with negative indices counting from the
end; out-of-range indices raise `IndexError`, modelled as `none`. -/
def pyIndex (xs : List RTree) (i : Int) : Option RTree :=
  if i < 0 then
    if (xs.length : Int) + i < 0 then none
    else xs[((xs.length : Int) + i).toNat]?
  else xs[i.toNat]?

/-- Selector traversal (`for elem in selector: selection = selection[elem]`
in `utils.simple_pagination` and `Repository.__since_filter`): `none`
models a raised `KeyError`/`IndexError`/`TypeError`. -/
def getPath : RTree → List PathKey → Option RTree
  | t, [] => some t
  | RTree.obj fs, PathKey.field s :: rest =>
    match getField fs s with
    | some v => getPath v rest
    | none => none
  | RTree.arr xs, PathKey.idx i :: rest =>
    match pyIndex xs i with
    | some v => getPath v rest
    | none => none
  | _, _ => none

/-- The filter closure produced by `Repository.__since_filter`
(Repository.py lines 510-561) for a non-`None` cutoff: it selects an ISO
date string in the data dict (`data["repository"][selector]` for a string
selector, the traversal of the selector list otherwise) and returns
whether that date is newer than the cutoff `past`.  Date parsing
(`datetime.fromisoformat`) and comparison are abstracted by the parameter
`parse` mapping ISO strings to timestamps; `none` models a raised
exception (missing key, out-of-range index such as `[-1]` on an empty
list, or a non-string at the selected position). -/
def since_filter (parse : String → Int) (selector : String ⊕ List PathKey)
    (past : Int) (data : RTree) : Option Bool :=
  let sel : Option RTree :=
    match selector with
    | Sum.inl st => getPath data [PathKey.field "repository", PathKey.field st]
    | Sum.inr ks => getPath data ks
  match sel with
  | some (RTree.str d) => some (decide (parse d > past))
  | _ => none

/-- `all(_filter(data) for _filter in filters)` with short-circuiting:
`none` models an exception raised by a filter (later filters are not
evaluated after a `False`, matching Python's lazy `all`). -/
def runFilters : List (RTree → Option Bool) → RTree → Option Bool
  | [], _ => some true
  | f :: fs, d =>
    match f d with
    | none => none
    | some b => if b then runFilters fs d else some false

/-- Outcome of one registered pagination check. -/
inductive PagResult where
  | exn : PagResult
  | stop : PagResult
  | next (endCursor : RTree) : PagResult

/-- The pagination closure produced by `utils.simple_pagination`
(utils.py lines 127-182): select the connection (under `"repository"` for
a string selector, by traversing the selector list otherwise), return no
continuation when `pageInfo.hasNextPage` is false, return no continuation
when some filter rejects the data, and otherwise return the single
continuation re-querying after `pageInfo.endCursor`.  The item count of
the connection is never consulted. -/
def simple_pagination (selector : String ⊕ List PathKey)
    (filters : List (RTree → Option Bool)) (data : RTree) : PagResult :=
  let sel : Option RTree :=
    match selector with
    | Sum.inl st => getPath data [PathKey.field "repository", PathKey.field st]
    | Sum.inr ks => getPath data ks
  match sel with
  | some selection =>
    match getPath selection [PathKey.field "pageInfo", PathKey.field "hasNextPage"] with
    | some (RTree.bool hnp) =>
      if !hnp then PagResult.stop
      else
        match runFilters filters data with
        | none => PagResult.exn
        | some false => PagResult.stop
        | some true =>
          match getPath selection [PathKey.field "pageInfo", PathKey.field "endCursor"] with
          | some cur => PagResult.next cur
          | none => PagResult.exn
    | _ => PagResult.exn
  | none => PagResult.exn


/-- A task channel: a FIFO queue of tasks plus the closed flag, modelling
the Python 3.13 `queue.Queue` with `shutdown()` used by
`RestRequest`/`CrawlRequest`/`CloneRequest` (the queues `self.rest`,
`self.crawl`, `self.clone` that `Repository.execute` shuts down). -/
structure Channel (τ : Type) where
  items : List τ
  isShutDown : Bool

/-- `queue.Queue.put` on a (possibly shut-down) queue: appends the task,
or raises `queue.ShutDown` (modelled as `none`) once the queue has been
shut down. -/
def Channel.put {τ : Type} (c : Channel τ) (t : τ) : Option (Channel τ) :=
  if c.isShutDown then none else some { c with items := c.items ++ [t] }

/-- Enqueue a list of tasks in order. -/
def Channel.putAll {τ : Type} (c : Channel τ) (ts : List τ) : Option (Channel τ) :=
  ts.foldlM Channel.put c

/-- `queue.Queue.shutdown()` (non-immediate, as called by
`Repository.execute`): marks the queue closed; already queued items remain
retrievable by `get` until the queue is empty. -/
def Channel.close {τ : Type} (c : Channel τ) : Channel τ :=
  { c with isShutDown := true }

/-- The drain loop of a channel runner (`RestRequest.__execute` lines
91-104, likewise `CrawlRequest.__execute` and `CloneRequest.__execute`):
`while item := q.get(): run item; if not keep_running and q.empty(): break`
wrapped in `except queue.ShutDown: pass`.  Returns the list of executed
tasks in execution order; `none` models the runner blocking forever in
`get()` on an empty queue that was never shut down. -/
def runDrain {τ : Type} (keepRunning : Bool) : Channel τ → Option (List τ)
  | ⟨[], sd⟩ => if sd then some [] else none
  | ⟨t :: rest, sd⟩ =>
    if !keepRunning && rest.isEmpty then some [t]
    else
      match runDrain keepRunning ⟨rest, sd⟩ with
      | some ts => some (t :: ts)
      | none => none

/-- The timing behaviour of `utils.handle_rate_limit` (utils.py lines
97-124): with a truthy reset timestamp `T` the sleep length is
`T - now + 5` (5 seconds of grace), without one it is `60 + 5`; the
wrapped call is issued at `now + sleep_time`.  `time.sleep` raises
`ValueError` on a negative length, modelled as `none` (the retry is then
never issued). -/
def handle_rate_limit_wake (timestamp : Option Int) (now : Int) : Option Int :=
  let sleep_time : Int :=
    (match timestamp with
     | some ts => ts - now
     | none => 60) + 5
  if sleep_time < 0 then none else some (now + sleep_time)

/-- Python `dict.update` (`res.update(elem)` in the channel runners):
every key of the incoming dict overwrites the existing entry in place or
is appended at the end. -/
def dictUpdate (m n : List (String × RTree)) : List (String × RTree) :=
  (m.map fun p =>
    match getField n p.1 with
    | some w => (p.1, w)
    | none => p) ++ n.filter (fun q => (getField m q.1).isNone)

/-- `CloneRequest.__execute` (CloneRequest.py lines 86-130): if the clone
task queue is empty the body is skipped entirely — the repository is never
cloned and the function implicitly returns `None`; otherwise it clones,
runs the queued tasks and returns the union of their result dicts.  The
boolean records whether the repository was cloned. -/
def clone_execute (tasks : List (List (String × RTree))) :
    Option (List (String × RTree)) × Bool :=
  if tasks.isEmpty then (none, false)
  else (some (tasks.foldl dictUpdate []), true)


/-- One reported GraphQL query error (an entry of
`TransportQueryError.errors`): its optional `"path"` entry and its
`"message"`. -/
structure QErr where
  path : Option (List String)
  message : String

/-- The outcome of one underlying `GraphRequest.__execute` call, as seen
by the error handling of `__execute_page`: success, a
`TransportQueryError` with its error list, a `TransportServerError` with
its HTTP status code, or a `requests.exceptions.ChunkedEncodingError`. -/
inductive Attempt where
  | ok (data : List (String × RTree)) : Attempt
  | tqe (errors : List QErr) : Attempt
  | tse (code : Int) : Attempt
  | cee : Attempt

/-- Result of `GraphRequest.__execute_page`: a page, a propagated
exception, or a `KeyError` (raised when the inner retry loop subscripts a
missing `"path"` entry). -/
inductive PageOutcome where
  | ok (data : List (String × RTree)) : PageOutcome
  | raised (a : Attempt) : PageOutcome
  | keyError : PageOutcome

/-- The path of the known-flaky sub-query. -/
def dgmPath : List String := ["repository", "dependencyGraphManifests"]

/-- The outer check of `GraphRequest.__execute_page` (lines 242-247):
exactly one error, carrying a `"path"` entry equal to
`["repository", "dependencyGraphManifests"]`, with message `"timedout"`. -/
def dgmMatchOuter (errs : List QErr) : Bool :=
  match errs with
  | [e] => e.path.isSome && decide (e.path = some dgmPath) &&
      decide (e.message = "timedout")
  | _ => false

/-- The inner check of the retry loop (lines 257-262): same condition but
`errors[0]["path"]` is subscripted without a presence check, so a missing
`"path"` raises `KeyError` (`none`). -/
def dgmMatchInner (errs : List QErr) : Option Bool :=
  match errs with
  | [e] =>
    match e.path with
    | some p => some (decide (p = dgmPath) && decide (e.message = "timedout"))
    | none => none
  | _ => some false

/-- The `for i in range(20)` retry loop of `__execute_page` (lines
249-271), fuelled by the remaining iteration count: each iteration calls
`__execute` once (`attempts` enumerates the successive call outcomes); a
success returns the page, a matching timeout error continues, any other
`TransportQueryError` is re-raised, any other exception propagates, and
after the loop runs out the `for`-`else` re-raises the original error.
Also returns the number of `__execute` calls made by the loop. -/
def dgmLoop (attempts : ℕ → Attempt) (orig : List QErr) :
    ℕ → ℕ → PageOutcome × ℕ
  | _, 0 => (PageOutcome.raised (Attempt.tqe orig), 0)
  | idx, fuel + 1 =>
    match attempts idx with
    | Attempt.ok d => (PageOutcome.ok d, 1)
    | Attempt.tqe errs =>
      match dgmMatchInner errs with
      | some true =>
        let r := dgmLoop attempts orig (idx + 1) fuel
        (r.1, r.2 + 1)
      | some false => (PageOutcome.raised (Attempt.tqe errs), 1)
      | none => (PageOutcome.keyError, 1)
    | a => (PageOutcome.raised a, 1)

/-- One try of `GraphRequest.__execute_page` (lines 205-274), without the
chunked-encoding recursion.  `attempts` enumerates the outcomes of the
successive underlying `__execute` calls starting at index `idx`;
`retryCee` is the result of the recursive `__execute_page` call to use on
a `ChunkedEncodingError` (`none` once `tries < MAX_RETRIES_CHUNKED_ERROR`
fails, which re-raises).  On a 403/429 `TransportServerError` the call is
handed to `utils.handle_rate_limit`, which sleeps once and then calls
`__execute` exactly once more with no further error handling, so a second
throttled response (or any other error) propagates.  On a matching
dependencyGraphManifests timeout the 20-iteration retry loop runs.
Returns the outcome together with the number of `__execute` calls made. -/
def execute_page_core (attempts : ℕ → Attempt) (idx : ℕ)
    (retryCee : Option (PageOutcome × ℕ)) : PageOutcome × ℕ :=
  match attempts idx with
  | Attempt.ok d => (PageOutcome.ok d, 1)
  | Attempt.cee =>
    match retryCee with
    | some r => (r.1, r.2 + 1)
    | none => (PageOutcome.raised Attempt.cee, 1)
  | Attempt.tse code =>
    if code = 403 ∨ code = 429 then
      match attempts (idx + 1) with
      | Attempt.ok d => (PageOutcome.ok d, 2)
      | a => (PageOutcome.raised a, 2)
    else (PageOutcome.raised (Attempt.tse code), 1)
  | Attempt.tqe errs =>
    if dgmMatchOuter errs then
      let r := dgmLoop attempts errs (idx + 1) 20
      (r.1, r.2 + 1)
    else (PageOutcome.raised (Attempt.tqe errs), 1)

/-- `GraphRequest.__execute_page` with `chunkedLeft` chunked-encoding
retries still allowed (`MAX_RETRIES_CHUNKED_ERROR - tries`; the constant
is referenced by the source but not defined under src, so it stays a
parameter). -/
def execute_page_rec (attempts : ℕ → Attempt) : ℕ → ℕ → PageOutcome × ℕ
  | 0, idx => execute_page_core attempts idx none
  | left + 1, idx =>
    execute_page_core attempts idx (some (execute_page_rec attempts left (idx + 1)))


/-- Python dict assignment `d[k] = v`: overwrites the entry in place when
the key is present, appends it otherwise. -/
def setField : List (String × RTree) → String → RTree → List (String × RTree)
  | [], k, w => [(k, w)]
  | (k2, v) :: rest, k, w =>
    if k = k2 then (k, w) :: rest else (k2, v) :: setField rest k w

/-- The explicit rate-limit accumulation step of `GraphRequest.execute`
(lines 183-185), applied to the freshly fetched page before merging:
`page["rateLimit"]["cost"] += result["rateLimit"]["cost"]` and
`page["rateLimit"]["nodeCount"] += result["rateLimit"]["nodeCount"]`.
`none` models the `KeyError`/`TypeError` raised when either dict lacks the
numeric fields. -/
def bumpRL (page result : List (String × RTree)) : Option (List (String × RTree)) :=
  match getField page "rateLimit", getField result "rateLimit" with
  | some (RTree.obj prl), some (RTree.obj rrl) =>
    match getField prl "cost", getField rrl "cost" with
    | some (RTree.num pc), some (RTree.num rc) =>
      match getField prl "nodeCount", getField rrl "nodeCount" with
      | some (RTree.num pn), some (RTree.num rn) =>
        some (setField page "rateLimit"
          (RTree.obj (setField (setField prl "cost" (RTree.num (pc + rc)))
            "nodeCount" (RTree.num (pn + rn)))))
      | _, _ => none
    | _, _ => none
  | _, _ => none

/-- One iteration of the pagination loop of `GraphRequest.execute` (lines
183-187): when rate-limit accounting is on, first add the accumulated
`cost`/`nodeCount` counters into the page's rate-limit sub-tree, then
`result = merge_dicts(result, page)`. -/
def pageStep (rate_limit : Bool) (result page : List (String × RTree)) :
    Option (List (String × RTree)) :=
  if rate_limit then
    match bumpRL page result with
    | some page2 => some (merge_dicts (some result) [some page2])
    | none => none
  else some (merge_dicts (some result) [some page])

/-- The accumulation of all pages by `GraphRequest.execute`: the first
page is the accumulator seed and every further page is folded in by
`pageStep`. -/
def graphAccum (rate_limit : Bool) (first : List (String × RTree))
    (rest : List (List (String × RTree))) : Option (List (String × RTree)) :=
  rest.foldlM (fun res page => pageStep rate_limit res page) first

/-- The pagination driver loop of `GraphRequest.execute` (lines 150-189),
fuelled: `conts trips res` abstracts "after round `trips`, evaluating the
registered pagination checks against the merged result `res` produced at
least one continuation method"; `page i` is the page returned by round
trip `i`.  Returns the final result and the number of round trips, `none`
on exhausted fuel or a raised exception. -/
def graphLoop (rate_limit : Bool) (page : ℕ → List (String × RTree))
    (conts : ℕ → List (String × RTree) → Bool) :
    ℕ → List (String × RTree) → ℕ → Option (List (String × RTree) × ℕ)
  | 0, _, _ => none
  | fuel + 1, res, trips =>
    if conts trips res then
      match pageStep rate_limit res (page trips) with
      | some res2 => graphLoop rate_limit page conts fuel res2 (trips + 1)
      | none => none
    else some (res, trips)

/-- `GraphRequest.execute` (lines 123-189): if nothing was queued (the
query's selection set is empty) it returns `{}` before issuing any round
trip, regardless of the `rate_limit` flag; otherwise it queries the first
page (round trip 1) and runs the pagination loop.  The second component
counts the round trips issued. -/
def graphExecute (selections : List String) (rate_limit : Bool)
    (page : ℕ → List (String × RTree))
    (conts : ℕ → List (String × RTree) → Bool) (fuel : ℕ) :
    Option (List (String × RTree) × ℕ) :=
  if selections = [] then some ([], 0)
  else graphLoop rate_limit page conts fuel (page 0) 1


/-- Scalar (non-map, non-sequence) result trees. -/
def isScalarKind : RTree → Bool
  | RTree.obj _ => false
  | RTree.arr _ => false
  | _ => true

/-- The shape of a page (or accumulator) dict whose `rateLimit` sub-tree
carries numeric `cost`/`nodeCount` counters plus scalar `remaining` and
`resetAt` values, as produced by the `_RATELIMIT_QUERY` selection. -/
def rlShape (d : List (String × RTree)) (c n : Int) (r s : RTree) : Prop :=
  ∃ rl, getField d "rateLimit" = some (RTree.obj rl) ∧
    getField rl "cost" = some (RTree.num c) ∧
    getField rl "nodeCount" = some (RTree.num n) ∧
    getField rl "remaining" = some r ∧
    getField rl "resetAt" = some s ∧
    isScalarKind r = true ∧ isScalarKind s = true

/-- A page together with its rate-limit counter values. -/
structure RLPage where
  d : List (String × RTree)
  cost : Int
  node : Int
  remaining : RTree
  resetAt : RTree

-- ===== THEOREMS =====






theorem mergeWithKey_eq (v : RTree) (k : String) (l : List (String × RTree)) :
    mergeWithKey v k l = match getField l k with
      | some w => mergeVal v w
      | none => v := by
  induction l with
  | nil => simp [mergeWithKey, getField]
  | cons p rest ih =>
    cases p with
    | mk k2 w =>
      rw [mergeWithKey, getField]
      by_cases h : k = k2 <;> simp [h, ih]

theorem mergeVal_obj_obj (m n : List (String × RTree)) :
    mergeVal (RTree.obj m) (RTree.obj n) = RTree.obj (mergeFields m n) := by
  rw [mergeVal, mergeFields]
  congr 1
  exact congrArg (· ++ _) (List.attach_map_val m fun x => (x.1, mergeWithKey x.2 x.1 n))

theorem mergeVal_arr_arr (xs ys : List RTree) :
    mergeVal (RTree.arr xs) (RTree.arr ys) = RTree.arr (xs ++ ys) := by
  rw [mergeVal]

theorem mergeVal_null_left (b : RTree) : mergeVal RTree.null b = b := by
  simp [mergeVal]

theorem mergeVal_bool_left (x : Bool) (b : RTree) : mergeVal (RTree.bool x) b = b := by
  simp [mergeVal]

theorem mergeVal_num_left (x : Int) (b : RTree) : mergeVal (RTree.num x) b = b := by
  simp [mergeVal]

theorem mergeVal_str_left (s : String) (b : RTree) : mergeVal (RTree.str s) b = b := by
  simp [mergeVal]

theorem mergeVal_obj_null (m : List (String × RTree)) :
    mergeVal (RTree.obj m) RTree.null = RTree.null := by
  simp [mergeVal]

theorem mergeVal_obj_bool (m : List (String × RTree)) (b : Bool) :
    mergeVal (RTree.obj m) (RTree.bool b) = RTree.bool b := by
  simp [mergeVal]

theorem mergeVal_obj_num (m : List (String × RTree)) (n : Int) :
    mergeVal (RTree.obj m) (RTree.num n) = RTree.num n := by
  simp [mergeVal]

theorem mergeVal_obj_str (m : List (String × RTree)) (t : String) :
    mergeVal (RTree.obj m) (RTree.str t) = RTree.str t := by
  simp [mergeVal]

theorem mergeVal_obj_arr (m : List (String × RTree)) (ys : List RTree) :
    mergeVal (RTree.obj m) (RTree.arr ys) = RTree.arr ys := by
  simp [mergeVal]

theorem mergeVal_arr_null (xs : List RTree) :
    mergeVal (RTree.arr xs) RTree.null = RTree.null := by
  simp [mergeVal]

theorem mergeVal_arr_bool (xs : List RTree) (b : Bool) :
    mergeVal (RTree.arr xs) (RTree.bool b) = RTree.bool b := by
  simp [mergeVal]

theorem mergeVal_arr_num (xs : List RTree) (n : Int) :
    mergeVal (RTree.arr xs) (RTree.num n) = RTree.num n := by
  simp [mergeVal]

theorem mergeVal_arr_str (xs : List RTree) (t : String) :
    mergeVal (RTree.arr xs) (RTree.str t) = RTree.str t := by
  simp [mergeVal]

theorem mergeVal_arr_obj (xs : List RTree) (n : List (String × RTree)) :
    mergeVal (RTree.arr xs) (RTree.obj n) = RTree.obj n := by
  simp [mergeVal]

theorem getField_append (xs ys : List (String × RTree)) (k : String) :
    getField (xs ++ ys) k = match getField xs k with
      | some v => some v
      | none => getField ys k := by
  induction xs with
  | nil => simp [getField]
  | cons p rest ih =>
    cases p with
    | mk k2 v =>
      rw [List.cons_append, getField, getField]
      by_cases h : k = k2 <;> simp [h, ih]

theorem getField_map_merge (n m : List (String × RTree)) (k : String) :
    getField (m.map fun p => (p.1, mergeWithKey p.2 p.1 n)) k =
      (getField m k).map (fun v => mergeWithKey v k n) := by
  induction m with
  | nil => simp [getField]
  | cons p rest ih =>
    cases p with
    | mk k2 v =>
      rw [List.map_cons, getField, getField]
      by_cases h : k = k2
      · subst h; simp
      · simp [h, ih]

theorem getField_filter_absent (m n : List (String × RTree)) (k : String) :
    getField (n.filter fun q => (getField m q.1).isNone) k =
      if (getField m k).isNone then getField n k else none := by
  induction n with
  | nil => simp [getField]
  | cons p rest ih =>
    cases p with
    | mk k2 v =>
      by_cases hp : (getField m k2).isNone
      · rw [List.filter_cons_of_pos (by simpa using hp), getField, getField]
        by_cases h : k = k2
        · subst h; simp [hp]
        · simp [h, ih]
      · rw [List.filter_cons_of_neg (by simpa using hp), getField, ih]
        by_cases h : k = k2
        · subst h; simp [hp]
        · simp [h]

theorem getField_mem {l : List (String × RTree)} {k : String} {v : RTree}
    (h : getField l k = some v) : (k, v) ∈ l := by
  induction l with
  | nil => simp [getField] at h
  | cons p rest ih =>
    cases p with
    | mk k2 w =>
      rw [getField] at h
      by_cases hk : k = k2
      · subst hk
        simp at h
        subst h
        exact List.mem_cons_self _ _
      · simp [hk] at h
        exact List.mem_cons_of_mem _ (ih h)

theorem RTree.sizeOf_pos (t : RTree) : 0 < sizeOf t := by
  cases t <;> simp

theorem sizeOf_getField {l : List (String × RTree)} {k : String} {v : RTree}
    (h : getField l k = some v) : sizeOf v < sizeOf l := by
  have hm := List.sizeOf_lt_of_mem (getField_mem h)
  have : sizeOf (k, v) = 1 + sizeOf k + sizeOf v := by simp
  omega

theorem getField_mergeFields (m n : List (String × RTree)) (k : String) :
    getField (mergeFields m n) k =
      match getField m k, getField n k with
      | some v, some w => some (mergeVal v w)
      | some v, none => some v
      | none, ow => ow := by
  rw [mergeFields, getField_append, getField_map_merge, getField_filter_absent]
  cases hm : getField m k with
  | some v =>
    simp [mergeWithKey_eq]
    cases hn : getField n k <;> simp
  | none =>
    simp

theorem compatWithKey_eq (v : RTree) (k : String) (l : List (String × RTree)) :
    compatWithKey v k l = match getField l k with
      | some w => compatB v w
      | none => true := by
  induction l with
  | nil => simp [compatWithKey, getField]
  | cons p rest ih =>
    cases p with
    | mk k2 w =>
      rw [compatWithKey, getField]
      by_cases h : k = k2 <;> simp [h, ih]

theorem compatB_obj_obj_iff (m n : List (String × RTree)) :
    compatB (RTree.obj m) (RTree.obj n) = true ↔
      ∀ p ∈ m, ∀ w, getField n p.1 = some w → compatB p.2 w = true := by
  rw [compatB, List.all_eq_true]
  constructor
  · intro h p hp w hw
    have h2 := h ⟨p, hp⟩ (List.mem_attach m ⟨p, hp⟩)
    rw [compatWithKey_eq, hw] at h2
    exact h2
  · intro h x _
    rw [compatWithKey_eq]
    cases hw : getField n x.1.1 with
    | some w => exact h x.1 x.2 w hw
    | none => rfl

theorem compatB_arr_shape {xs : List RTree} {b : RTree}
    (h : compatB (RTree.arr xs) b = true) : ∃ ys, b = RTree.arr ys := by
  cases b with
  | arr ys => exact ⟨ys, rfl⟩
  | null => simp [compatB] at h
  | bool x => simp [compatB] at h
  | num x => simp [compatB] at h
  | str s => simp [compatB] at h
  | obj n => simp [compatB] at h

theorem compatB_obj_shape {m : List (String × RTree)} {b : RTree}
    (h : compatB (RTree.obj m) b = true) : ∃ n, b = RTree.obj n := by
  cases b with
  | obj n => exact ⟨n, rfl⟩
  | null => simp [compatB] at h
  | bool x => simp [compatB] at h
  | num x => simp [compatB] at h
  | str s => simp [compatB] at h
  | arr ys => simp [compatB] at h

theorem filter_map_keyed (l : List (String × RTree)) (g : String × RTree → String × RTree)
    (hg : ∀ q, (g q).1 = q.1) (pred : String → Bool) :
    (l.filter fun q => pred q.1).map g = (l.map g).filter (fun q => pred q.1) := by
  induction l with
  | nil => simp
  | cons q rest ih =>
    by_cases h : pred q.1
    · rw [List.filter_cons_of_pos (by simpa using h), List.map_cons, List.map_cons,
        List.filter_cons_of_pos (by simpa [hg q] using h), ih]
    · rw [List.filter_cons_of_neg (by simpa using h), List.map_cons,
        List.filter_cons_of_neg (by simpa [hg q] using h), ih]

theorem mergeVal_assoc_of_compat :
    ∀ (N : ℕ) (a b c : RTree), sizeOf a + sizeOf b + sizeOf c ≤ N →
      compatB a b = true → compatB b c = true → compatB a c = true →
      mergeVal (mergeVal a b) c = mergeVal a (mergeVal b c) := by
  intro N
  induction N with
  | zero =>
    intro a b c hsize _ _ _
    have := RTree.sizeOf_pos a
    have := RTree.sizeOf_pos b
    have := RTree.sizeOf_pos c
    omega
  | succ N ih =>
    intro a b c hsize hab hbc hac
    cases a with
    | null => rw [mergeVal_null_left, mergeVal_null_left]
    | bool x => rw [mergeVal_bool_left, mergeVal_bool_left]
    | num x => rw [mergeVal_num_left, mergeVal_num_left]
    | str t => rw [mergeVal_str_left, mergeVal_str_left]
    | arr xs =>
      obtain ⟨ys, rfl⟩ := compatB_arr_shape hab
      obtain ⟨zs, rfl⟩ := compatB_arr_shape hbc
      rw [mergeVal_arr_arr, mergeVal_arr_arr, mergeVal_arr_arr, mergeVal_arr_arr,
        List.append_assoc]
    | obj m =>
      obtain ⟨n, rfl⟩ := compatB_obj_shape hab
      obtain ⟨p, rfl⟩ := compatB_obj_shape hbc
      rw [mergeVal_obj_obj, mergeVal_obj_obj, mergeVal_obj_obj, mergeVal_obj_obj]
      congr 1
      have hsm : sizeOf (RTree.obj m) = 1 + sizeOf m := by simp
      have hsn : sizeOf (RTree.obj n) = 1 + sizeOf n := by simp
      have hsp : sizeOf (RTree.obj p) = 1 + sizeOf p := by simp
      -- unfold all four merges of fields
      rw [show mergeFields (mergeFields m n) p =
            (mergeFields m n).map (fun q => (q.1, mergeWithKey q.2 q.1 p)) ++
              p.filter (fun q => (getField (mergeFields m n) q.1).isNone) from rfl]
      rw [show mergeFields m (mergeFields n p) =
            m.map (fun q => (q.1, mergeWithKey q.2 q.1 (mergeFields n p))) ++
              (mergeFields n p).filter (fun q => (getField m q.1).isNone) from rfl]
      rw [show mergeFields m n =
            m.map (fun q => (q.1, mergeWithKey q.2 q.1 n)) ++
              n.filter (fun q => (getField m q.1).isNone) from rfl]
      rw [show mergeFields n p =
            n.map (fun q => (q.1, mergeWithKey q.2 q.1 p)) ++
              p.filter (fun q => (getField n q.1).isNone) from rfl]
      rw [List.map_append, List.map_map, List.filter_append, List.filter_filter,
        List.append_assoc]
      -- first segment: the keys of the original dict
      have segA :
          m.map ((fun q : String × RTree => (q.1, mergeWithKey q.2 q.1 p)) ∘
              (fun q : String × RTree => (q.1, mergeWithKey q.2 q.1 n))) =
            m.map (fun q => (q.1, mergeWithKey q.2 q.1
              (n.map (fun q : String × RTree => (q.1, mergeWithKey q.2 q.1 p)) ++
                p.filter (fun q => (getField n q.1).isNone)))) := by
        have hfold :
            (n.map (fun q : String × RTree => (q.1, mergeWithKey q.2 q.1 p)) ++
              p.filter (fun q => (getField n q.1).isNone)) = mergeFields n p := rfl
        rw [hfold]
        apply List.map_congr_left
        intro x hx
        simp only [Function.comp_apply]
        apply Prod.ext
        · rfl
        · simp only []
          rw [mergeWithKey_eq, mergeWithKey_eq, mergeWithKey_eq, getField_mergeFields]
          have hszx : sizeOf x.2 < sizeOf m := by
            have h1 := List.sizeOf_lt_of_mem hx
            have h2 : sizeOf x.2 ≤ sizeOf x := by
              cases x with
              | mk u v => simp only [Prod.mk.sizeOf_spec]; omega
            omega
          cases hn : getField n x.1 with
          | some w =>
            cases hu : getField p x.1 with
            | some u =>
              simp only []
              have hw : (x.1, w) ∈ n := getField_mem hn
              have hcvw : compatB x.2 w = true :=
                (compatB_obj_obj_iff m n).mp hab x hx w hn
              have hcwu : compatB w u = true :=
                (compatB_obj_obj_iff n p).mp hbc (x.1, w) hw u hu
              have hcvu : compatB x.2 u = true :=
                (compatB_obj_obj_iff m p).mp hac x hx u hu
              have hszw : sizeOf w < sizeOf n := sizeOf_getField hn
              have hszu : sizeOf u < sizeOf p := sizeOf_getField hu
              exact ih x.2 w u (by omega) hcvw hcwu hcvu
            | none => simp
          | none =>
            cases hu : getField p x.1 with
            | some u => simp
            | none => simp
      -- second segment: the keys only in the incoming middle dict
      have segB :
          (n.filter (fun q => (getField m q.1).isNone)).map
              (fun q : String × RTree => (q.1, mergeWithKey q.2 q.1 p)) =
            (n.map (fun q : String × RTree => (q.1, mergeWithKey q.2 q.1 p))).filter
              (fun q => (getField m q.1).isNone) :=
        filter_map_keyed n (fun q => (q.1, mergeWithKey q.2 q.1 p)) (fun q => rfl)
          (fun k => (getField m k).isNone)
      -- third segment: the keys only in the last dict
      have segC :
          p.filter (fun q =>
              (getField (m.map (fun q : String × RTree => (q.1, mergeWithKey q.2 q.1 n)) ++
                n.filter (fun q => (getField m q.1).isNone)) q.1).isNone) =
            p.filter (fun a => (getField m a.1).isNone && (getField n a.1).isNone) := by
        have hfold :
            (m.map (fun q : String × RTree => (q.1, mergeWithKey q.2 q.1 n)) ++
              n.filter (fun q => (getField m q.1).isNone)) = mergeFields m n := rfl
        rw [hfold]
        apply List.filter_congr
        intro q _
        rw [getField_mergeFields]
        cases getField m q.1 <;> cases getField n q.1 <;> simp
      rw [segA, segB, segC]
/-- C1 (counterexample): deep-merge via `merge_dicts` is not associative.
With `a = {"k": [1]}`, `b = {"k": 2}`, `c = {"k": [3]}` the left
association first overwrites the list with the scalar `2` and then with
the list `[3]`, giving `{"k": [3]}`, while the right association merges
`b` and `c` into `{"k": [3]}` first and then concatenates the lists,
giving `{"k": [1, 3]}`. -/
theorem merge_dicts_not_assoc :
    merge_dicts
        (some (merge_dicts (some [("k", RTree.arr [RTree.num 1])])
          [some [("k", RTree.num 2)]]))
        [some [("k", RTree.arr [RTree.num 3])]] ≠
      merge_dicts (some [("k", RTree.arr [RTree.num 1])])
        [some (merge_dicts (some [("k", RTree.num 2)])
          [some [("k", RTree.arr [RTree.num 3])]])] := by
  simp [merge_dicts, mergeFields, getField, mergeWithKey_eq, mergeVal_num_left,
    mergeVal_arr_num, mergeVal_arr_arr]

/-- C1 (amended): deep-merge is associative for kind-compatible result
trees: `merge_dicts(merge_dicts(a, b), c) = merge_dicts(a, merge_dicts(b, c))`
whenever at every path shared by two of the three trees both values are
maps, both are sequences, or both are scalars.  Without that restriction
associativity fails (see the counterexample): a scalar sitting between two
sequences (or two maps) at the same key resets the accumulator on the left
but not on the right. -/
theorem merge_dicts_assoc_of_compat (a b c : List (String × RTree))
    (hab : compatB (RTree.obj a) (RTree.obj b) = true)
    (hbc : compatB (RTree.obj b) (RTree.obj c) = true)
    (hac : compatB (RTree.obj a) (RTree.obj c) = true) :
    merge_dicts (some (merge_dicts (some a) [some b])) [some c] =
      merge_dicts (some a) [some (merge_dicts (some b) [some c])] := by
  have h := mergeVal_assoc_of_compat
    (sizeOf (RTree.obj a) + sizeOf (RTree.obj b) + sizeOf (RTree.obj c))
    (RTree.obj a) (RTree.obj b) (RTree.obj c) le_rfl hab hbc hac
  rw [mergeVal_obj_obj, mergeVal_obj_obj, mergeVal_obj_obj, mergeVal_obj_obj] at h
  have h2 : mergeFields (mergeFields a b) c = mergeFields a (mergeFields b c) := by
    simpa using h
  exact h2

/-- C1 (witness): the amended associativity applied to the concrete
kind-compatible triple `{"k": [1]}`, `{"k": [2]}`, `{"k": [3]}`. -/
theorem merge_dicts_assoc_of_compat_witness :
    (compatB (RTree.obj [("k", RTree.arr [RTree.num 1])])
        (RTree.obj [("k", RTree.arr [RTree.num 2])]) = true ∧
      compatB (RTree.obj [("k", RTree.arr [RTree.num 2])])
        (RTree.obj [("k", RTree.arr [RTree.num 3])]) = true ∧
      compatB (RTree.obj [("k", RTree.arr [RTree.num 1])])
        (RTree.obj [("k", RTree.arr [RTree.num 3])]) = true) ∧
    merge_dicts (some (merge_dicts (some [("k", RTree.arr [RTree.num 1])])
        [some [("k", RTree.arr [RTree.num 2])]]))
        [some [("k", RTree.arr [RTree.num 3])]] =
      merge_dicts (some [("k", RTree.arr [RTree.num 1])])
        [some (merge_dicts (some [("k", RTree.arr [RTree.num 2])])
          [some [("k", RTree.arr [RTree.num 3])]])] := by
  have h1 : compatB (RTree.obj [("k", RTree.arr [RTree.num 1])])
      (RTree.obj [("k", RTree.arr [RTree.num 2])]) = true := by
    simp [compatB, compatWithKey]
  have h2 : compatB (RTree.obj [("k", RTree.arr [RTree.num 2])])
      (RTree.obj [("k", RTree.arr [RTree.num 3])]) = true := by
    simp [compatB, compatWithKey]
  have h3 : compatB (RTree.obj [("k", RTree.arr [RTree.num 1])])
      (RTree.obj [("k", RTree.arr [RTree.num 3])]) = true := by
    simp [compatB, compatWithKey]
  exact ⟨⟨h1, h2, h3⟩, merge_dicts_assoc_of_compat _ _ _ h1 h2 h3⟩

/-- C2 (counterexample): a page reporting `hasNextPage = true` with zero
returned items does cause another round trip: `simple_pagination` (with no
filters registered, as for the `dependencyGraphManifests`,
`vulnerabilityAlerts` and `branches` connections) consults only
`pageInfo.hasNextPage`, never the item count, and returns the continuation
re-querying after `endCursor`. -/
theorem empty_page_causes_round_trip :
    simple_pagination (Sum.inl "conn") []
      (RTree.obj [("repository", RTree.obj [("conn", RTree.obj
        [("pageInfo", RTree.obj [("hasNextPage", RTree.bool true),
          ("endCursor", RTree.str "c")]),
         ("edges", RTree.arr [])])])]) = PagResult.next (RTree.str "c") := by
  rfl

/-- C2 (amended): the pagination check does not treat zero items as
no-more-pages.  For a connection whose page reports `hasNextPage = true`
and zero items: with no filters the check returns a continuation (another
round trip); with the usual last-item since filter (`edges[-1]`) the check
raises an `IndexError` instead of returning no continuation. -/
theorem empty_page_not_treated_as_last (s : String) (cur : RTree)
    (parse : String → Int) (past : Int) :
    simple_pagination (Sum.inl s) []
        (RTree.obj [("repository", RTree.obj [(s, RTree.obj
          [("pageInfo", RTree.obj [("hasNextPage", RTree.bool true),
            ("endCursor", cur)]),
           ("edges", RTree.arr [])])])]) = PagResult.next cur ∧
      simple_pagination (Sum.inl s)
        [since_filter parse (Sum.inr [PathKey.field "repository", PathKey.field s,
          PathKey.field "edges", PathKey.idx (-1), PathKey.field "node",
          PathKey.field "createdAt"]) past]
        (RTree.obj [("repository", RTree.obj [(s, RTree.obj
          [("pageInfo", RTree.obj [("hasNextPage", RTree.bool true),
            ("endCursor", cur)]),
           ("edges", RTree.arr [])])])]) = PagResult.exn := by
  constructor
  · simp [simple_pagination, runFilters, getPath, getField]
  · simp [simple_pagination, since_filter, runFilters, getPath, getField, pyIndex]

/-- C6: pagination stops early under a `since` cutoff: when the connection
page reports `hasNextPage = true` but the date selected by the registered
since filter (the last item of the just-merged page) is older than the
cutoff, `simple_pagination` produces no continuation. -/
theorem since_cutoff_stops_pagination (parse : String → Int) (past : Int)
    (s : String) (itemsSel : List PathKey) (d : String) (data conn : RTree)
    (hconn : getPath data [PathKey.field "repository", PathKey.field s] = some conn)
    (hnp : getPath conn [PathKey.field "pageInfo", PathKey.field "hasNextPage"] =
      some (RTree.bool true))
    (hitem : getPath data itemsSel = some (RTree.str d))
    (hold : parse d < past) :
    simple_pagination (Sum.inl s) [since_filter parse (Sum.inr itemsSel) past] data =
      PagResult.stop := by
  have hng : ¬ (parse d > past) := by omega
  simp [simple_pagination, since_filter, runFilters, hconn, hnp, hitem, hng]

/-- C6 (witness): the cutoff theorem applied to a concrete issues page
whose last item is older than the cutoff. -/
theorem since_cutoff_stops_pagination_witness :
    simple_pagination (Sum.inl "issues")
        [since_filter (fun _ => 0) (Sum.inr [PathKey.field "repository",
          PathKey.field "issues", PathKey.field "edges", PathKey.idx (-1),
          PathKey.field "node", PathKey.field "createdAt"]) 7]
        (RTree.obj [("repository", RTree.obj [("issues", RTree.obj
          [("pageInfo", RTree.obj [("hasNextPage", RTree.bool true),
            ("endCursor", RTree.str "c")]),
           ("edges", RTree.arr [RTree.obj [("node", RTree.obj
             [("createdAt", RTree.str "2015-01-01T00:00:00Z")])]])])])]) =
      PagResult.stop :=
  since_cutoff_stops_pagination (fun _ => 0) 7 "issues" _ "2015-01-01T00:00:00Z" _ _
    rfl rfl rfl (by decide)

theorem Channel.putAll_open {τ : Type} (ts : List τ) :
    ∀ (c : Channel τ), c.isShutDown = false →
      Channel.putAll c ts = some ⟨c.items ++ ts, false⟩ := by
  induction ts with
  | nil =>
    intro c hc
    cases c with
    | mk items sd =>
      simp at hc
      subst hc
      simp [Channel.putAll]
  | cons t rest ih =>
    intro c hc
    cases c with
    | mk items sd =>
      simp at hc
      subst hc
      rw [Channel.putAll, List.foldlM_cons]
      rw [show Channel.put ⟨items, false⟩ t = some ⟨items ++ [t], false⟩ from rfl]
      simpa using ih ⟨items ++ [t], false⟩ rfl

theorem runDrain_closed {τ : Type} (tasks : List τ) :
    runDrain true ⟨tasks, true⟩ = some tasks := by
  induction tasks with
  | nil => simp [runDrain]
  | cons t rest ih => rw [runDrain]; simp [ih]

/-- C3: channel shutdown correctness.  Enqueuing `N` tasks on an open
channel succeeds and stores them in FIFO order; after `shutdown()` is
called the runner (with the `keep_running = True` policy that
`Repository.__init__` sets) executes exactly those `N` tasks in enqueue
order and then exits; and no task can be enqueued after shutdown
(`put` raises `queue.ShutDown`). -/
theorem channel_shutdown_correct (τ : Type) (tasks : List τ) :
    Channel.putAll ⟨([] : List τ), false⟩ tasks = some ⟨tasks, false⟩ ∧
      runDrain true (Channel.close ⟨tasks, false⟩) = some tasks ∧
      ∀ (c : Channel τ) (t : τ), c.isShutDown = true → Channel.put c t = none := by
  refine ⟨by simpa using Channel.putAll_open tasks ⟨[], false⟩ rfl, ?_, ?_⟩
  · exact runDrain_closed tasks
  · intro c t hc
    simp [Channel.put, hc]

/-- C4: throttling backoff.  For a throttled response carrying a
server-advertised reset timestamp `T`, whenever `handle_rate_limit`
reaches the retry at all, the wrapped call is issued at time `T + 5`
(reset time plus the 5-second grace period) — never before `T + 5`. -/
theorem throttle_retry_not_before_reset (T now wake : Int)
    (h : handle_rate_limit_wake (some T) now = some wake) : T + 5 ≤ wake := by
  rw [handle_rate_limit_wake] at h
  by_cases hneg : T - now + 5 < 0
  · simp [hneg] at h
  · simp [hneg] at h
    omega

/-- C4 (witness): the backoff theorem at the concrete reset time 100 and
current time 50: the retry is issued at 105 = 100 + 5. -/
theorem throttle_retry_not_before_reset_witness :
    handle_rate_limit_wake (some 100) 50 = some 105 ∧ (100 : Int) + 5 ≤ 105 :=
  ⟨by decide, throttle_retry_not_before_reset 100 50 105 (by decide)⟩

/-- C10: if no clone tasks were queued, `CloneRequest.__execute` skips the
clone entirely and returns `None` rather than a dict; the final
aggregation `merge_dicts(gres, cres, rres, cloneres)` still produces a
dict because `merge_dicts` coerces every `None` argument to the empty
dict (`new or {}`). -/
theorem clone_none_merges_as_empty (g c r : List (String × RTree)) :
    clone_execute [] = (none, false) ∧
      merge_dicts (some g) [some c, some r, none] =
        merge_dicts (some g) [some c, some r, some []] := by
  exact ⟨rfl, rfl⟩

theorem dgmMatchOuter_inner {errs : List QErr} (h : dgmMatchOuter errs = true) :
    dgmMatchInner errs = some true := by
  cases errs with
  | nil => simp [dgmMatchOuter] at h
  | cons e rest =>
    cases rest with
    | nil =>
      simp [dgmMatchOuter] at h
      obtain ⟨⟨hs, hp⟩, hm⟩ := h
      simp [dgmMatchInner, hp, hm]
    | cons e2 rest2 => simp [dgmMatchOuter] at h

theorem dgmLoop_all_fail (attempts : ℕ → Attempt) (orig errs : List QErr)
    (hin : dgmMatchInner errs = some true) :
    ∀ (fuel idx : ℕ), (∀ j < fuel, attempts (idx + j) = Attempt.tqe errs) →
      dgmLoop attempts orig idx fuel = (PageOutcome.raised (Attempt.tqe orig), fuel) := by
  intro fuel
  induction fuel with
  | zero => intro idx _; rfl
  | succ f ih =>
    intro idx h
    have h0 : attempts idx = Attempt.tqe errs := by simpa using h 0 (Nat.succ_pos f)
    rw [dgmLoop, h0]
    simp only [hin]
    have hrest : ∀ j < f, attempts (idx + 1 + j) = Attempt.tqe errs := by
      intro j hj
      have := h (j + 1) (by omega)
      simpa [Nat.add_assoc, Nat.add_comm 1 j] using this
    simp [ih (idx + 1) hrest]

theorem dgmLoop_rescued (attempts : ℕ → Attempt) (orig errs : List QErr)
    (d : List (String × RTree)) (hin : dgmMatchInner errs = some true) :
    ∀ (k fuel idx : ℕ), k < fuel →
      (∀ j < k, attempts (idx + j) = Attempt.tqe errs) →
      attempts (idx + k) = Attempt.ok d →
      dgmLoop attempts orig idx fuel = (PageOutcome.ok d, k + 1) := by
  intro k
  induction k with
  | zero =>
    intro fuel idx hk _ hok
    cases fuel with
    | zero => omega
    | succ f =>
      simp only [Nat.add_zero] at hok
      rw [dgmLoop, hok]
  | succ k2 ih =>
    intro fuel idx hk hfail hok
    cases fuel with
    | zero => omega
    | succ f =>
      have h0 : attempts idx = Attempt.tqe errs := by simpa using hfail 0 (Nat.succ_pos k2)
      have hrest : ∀ j < k2, attempts (idx + 1 + j) = Attempt.tqe errs := by
        intro j hj
        have := hfail (j + 1) (by omega)
        simpa [Nat.add_assoc, Nat.add_comm 1 j] using this
      have hok2 : attempts (idx + 1 + k2) = Attempt.ok d := by
        have heq : idx + 1 + k2 = idx + (k2 + 1) := by omega
        rw [heq]
        exact hok
      rw [dgmLoop, h0]
      simp [hin, ih f (idx + 1) (by omega) hrest hok2]

/-- C7: the known-flaky `dependencyGraphManifests` timeout.  When the
first call raises a single query error with path
`["repository", "dependencyGraphManifests"]` and message `"timedout"`:
(1) if all 20 retries fail the same way, the original error is propagated
after exactly 20 extra `__execute` calls; (2) if the `k`-th retry
(`k < 20`) succeeds after matching failures, the page is returned (the
retry is bounded and can rescue); (3) any query error that does not match
the flaky pattern is propagated immediately, after a single `__execute`
call and no retry. -/
theorem dgm_timeout_retry (attempts : ℕ → Attempt) (chunkedLeft idx : ℕ)
    (errs : List QErr) (hfirst : attempts idx = Attempt.tqe errs)
    (hmatch : dgmMatchOuter errs = true) :
    ((∀ j < 20, attempts (idx + 1 + j) = Attempt.tqe errs) →
        execute_page_rec attempts chunkedLeft idx =
          (PageOutcome.raised (Attempt.tqe errs), 21)) ∧
      (∀ (k : ℕ) (d : List (String × RTree)), k < 20 →
        (∀ j < k, attempts (idx + 1 + j) = Attempt.tqe errs) →
        attempts (idx + 1 + k) = Attempt.ok d →
        execute_page_rec attempts chunkedLeft idx = (PageOutcome.ok d, k + 2)) ∧
      (∀ (attempts2 : ℕ → Attempt) (cl2 idx2 : ℕ) (errs2 : List QErr),
        attempts2 idx2 = Attempt.tqe errs2 → dgmMatchOuter errs2 = false →
        execute_page_rec attempts2 cl2 idx2 =
          (PageOutcome.raised (Attempt.tqe errs2), 1)) := by
  have hin := dgmMatchOuter_inner hmatch
  have hunfold : ∀ (att : ℕ → Attempt) (cl i : ℕ), ∃ rc,
      execute_page_rec att cl i = execute_page_core att i rc := by
    intro att cl i
    cases cl with
    | zero => exact ⟨none, rfl⟩
    | succ l => exact ⟨some (execute_page_rec att l (i + 1)), rfl⟩
  refine ⟨?_, ?_, ?_⟩
  · intro hall
    obtain ⟨rc, hrc⟩ := hunfold attempts chunkedLeft idx
    rw [hrc]
    unfold execute_page_core
    rw [hfirst]
    simp only [hmatch, if_true]
    rw [dgmLoop_all_fail attempts errs errs hin 20 (idx + 1) hall]
  · intro k d hk hfail hok
    obtain ⟨rc, hrc⟩ := hunfold attempts chunkedLeft idx
    rw [hrc]
    unfold execute_page_core
    rw [hfirst]
    simp only [hmatch, if_true]
    rw [dgmLoop_rescued attempts errs errs d hin k 20 (idx + 1) hk hfail hok]
  · intro attempts2 cl2 idx2 errs2 h2 hm2
    obtain ⟨rc, hrc⟩ := hunfold attempts2 cl2 idx2
    rw [hrc]
    unfold execute_page_core
    rw [h2]
    simp [hm2]

/-- C7 (witness): the retry bound at work on concrete oracles: an
always-timing-out oracle propagates the original error after 21 calls, and
a non-matching query error is propagated immediately after one call. -/
theorem dgm_timeout_retry_witness :
    execute_page_rec (fun _ => Attempt.tqe [⟨some dgmPath, "timedout"⟩]) 5 0 =
        (PageOutcome.raised (Attempt.tqe [⟨some dgmPath, "timedout"⟩]), 21) ∧
      execute_page_rec (fun _ => Attempt.tqe [⟨some ["repository", "issues"], "timedout"⟩]) 5 0 =
        (PageOutcome.raised (Attempt.tqe [⟨some ["repository", "issues"], "timedout"⟩]), 1) := by
  constructor
  · exact (dgm_timeout_retry (fun _ => Attempt.tqe [⟨some dgmPath, "timedout"⟩]) 5 0
      [⟨some dgmPath, "timedout"⟩] rfl (by decide)).1 (fun j _ => rfl)
  · exact (dgm_timeout_retry (fun _ => Attempt.tqe [⟨some dgmPath, "timedout"⟩]) 5 0
      [⟨some dgmPath, "timedout"⟩] rfl (by decide)).2.2
      (fun _ => Attempt.tqe [⟨some ["repository", "issues"], "timedout"⟩]) 5 0
      [⟨some ["repository", "issues"], "timedout"⟩] rfl (by decide)

/-- C8 (counterexample): the throttling retry is not unbounded and a
persistent throttle does surface as an error: with every call answered by
HTTP 403, `__execute_page` makes exactly two calls (the original and the
single retry issued by `handle_rate_limit`) and then the second
`TransportServerError` propagates to the caller. -/
theorem persistent_throttle_surfaces :
    execute_page_rec (fun _ => Attempt.tse 403) 5 0 =
      (PageOutcome.raised (Attempt.tse 403), 2) := by
  rfl

/-- C8 (amended): the throttling retry is single-shot, not unbounded.  On
a throttled (403/429) response, `handle_rate_limit` sleeps once and calls
`__execute` exactly once more, with no error handling around it: a
successful retry returns the page, and any error from the retry —
including a second throttle — propagates to the caller (the source
comments that it should "crash and let the task queue retry later"). -/
theorem throttle_retry_single_shot (attempts : ℕ → Attempt)
    (chunkedLeft idx : ℕ) (code : Int) (h1 : attempts idx = Attempt.tse code)
    (hc : code = 403 ∨ code = 429) :
    execute_page_rec attempts chunkedLeft idx =
      (match attempts (idx + 1) with
       | Attempt.ok d => PageOutcome.ok d
       | a => PageOutcome.raised a, 2) := by
  have hunfold : ∃ rc, execute_page_rec attempts chunkedLeft idx =
      execute_page_core attempts idx rc := by
    cases chunkedLeft with
    | zero => exact ⟨none, rfl⟩
    | succ l => exact ⟨some (execute_page_rec attempts l (idx + 1)), rfl⟩
  obtain ⟨rc, hrc⟩ := hunfold
  rw [hrc]
  unfold execute_page_core
  rw [h1]
  have hT : (code = 403 ∨ code = 429) = True := by simp [hc]
  simp only [hT, if_true]
  cases attempts (idx + 1) <;> simp

/-- C8 (amended, witness): the single-shot retry applied to an oracle that
is throttled with HTTP 429 on the first call and succeeds on the retry. -/
theorem throttle_retry_single_shot_witness :
    execute_page_rec
        (fun i => if i = 0 then Attempt.tse 429 else Attempt.ok [("x", RTree.num 1)]) 3 0 =
      (PageOutcome.ok [("x", RTree.num 1)], 2) := by
  have h := throttle_retry_single_shot
    (fun i => if i = 0 then Attempt.tse 429 else Attempt.ok [("x", RTree.num 1)]) 3 0 429
    rfl (Or.inr rfl)
  simpa using h

theorem getField_setField_self (l : List (String × RTree)) (k : String) (w : RTree) :
    getField (setField l k w) k = some w := by
  induction l with
  | nil => simp [setField, getField]
  | cons p rest ih =>
    cases p with
    | mk k2 v =>
      rw [setField]
      by_cases h : k = k2
      · simp [h, getField]
      · rw [if_neg h, getField, if_neg h]
        exact ih

theorem getField_setField_ne (l : List (String × RTree)) (k k2 : String)
    (w : RTree) (hne : k2 ≠ k) :
    getField (setField l k w) k2 = getField l k2 := by
  induction l with
  | nil => simp [setField, getField, hne]
  | cons p rest ih =>
    cases p with
    | mk k3 v =>
      rw [setField]
      by_cases h : k = k3
      · subst h
        simp [getField, hne]
      · rw [if_neg h, getField, getField]
        by_cases h2 : k2 = k3
        · simp [h2]
        · simp [h2, ih]

theorem mergeVal_scalar_right (v w : RTree) (hw : isScalarKind w = true) :
    mergeVal v w = w := by
  cases w with
  | obj n => simp [isScalarKind] at hw
  | arr ys => simp [isScalarKind] at hw
  | null => cases v <;> simp [mergeVal]
  | bool b => cases v <;> simp [mergeVal]
  | num n => cases v <;> simp [mergeVal]
  | str t => cases v <;> simp [mergeVal]

theorem bumpRL_shape {pd acc : List (String × RTree)} {pc pn c n : Int}
    {pr ps r s0 : RTree}
    (hp : rlShape pd pc pn pr ps) (ha : rlShape acc c n r s0) :
    ∃ prl2, bumpRL pd acc =
        some (setField pd "rateLimit" (RTree.obj prl2)) ∧
      getField prl2 "cost" = some (RTree.num (pc + c)) ∧
      getField prl2 "nodeCount" = some (RTree.num (pn + n)) ∧
      getField prl2 "remaining" = some pr ∧
      getField prl2 "resetAt" = some ps := by
  obtain ⟨prl, hprl, hpc, hpn, hpr, hps, hsr, hss⟩ := hp
  obtain ⟨rrl, hrrl, hrc, hrn, _, _, _, _⟩ := ha
  refine ⟨setField (setField prl "cost" (RTree.num (pc + c))) "nodeCount"
    (RTree.num (pn + n)), ?_, ?_, ?_, ?_, ?_⟩
  · rw [bumpRL, hprl, hrrl]
    simp only [hpc, hrc, hpn, hrn]
  · rw [getField_setField_ne _ "nodeCount" "cost" _ (by decide),
      getField_setField_self]
  · rw [getField_setField_self]
  · rw [getField_setField_ne _ "nodeCount" "remaining" _ (by decide),
      getField_setField_ne _ "cost" "remaining" _ (by decide), hpr]
  · rw [getField_setField_ne _ "nodeCount" "resetAt" _ (by decide),
      getField_setField_ne _ "cost" "resetAt" _ (by decide), hps]

theorem pageStep_rl {pd acc : List (String × RTree)} {pc pn c n : Int}
    {pr ps r s0 : RTree}
    (hp : rlShape pd pc pn pr ps) (ha : rlShape acc c n r s0) :
    ∃ res2, pageStep true acc pd = some res2 ∧
      rlShape res2 (c + pc) (n + pn) pr ps := by
  obtain ⟨prl2, hbump, h2c, h2n, h2r, h2s⟩ := bumpRL_shape hp ha
  obtain ⟨prl, hprl, hpc, hpn, hpr, hps, hsr, hss⟩ := hp
  obtain ⟨rrl, hrrl, hrc, hrn, hrr, hrs, _, _⟩ := ha
  refine ⟨merge_dicts (some acc) [some (setField pd "rateLimit" (RTree.obj prl2))],
    ?_, ?_⟩
  · rw [pageStep, if_pos rfl, hbump]
  · have hpage2 : getField (setField pd "rateLimit" (RTree.obj prl2)) "rateLimit" =
        some (RTree.obj prl2) := getField_setField_self pd "rateLimit" _
    have hmerge : merge_dicts (some acc)
        [some (setField pd "rateLimit" (RTree.obj prl2))] =
          mergeFields acc (setField pd "rateLimit" (RTree.obj prl2)) := rfl
    rw [hmerge]
    refine ⟨mergeFields rrl prl2, ?_, ?_, ?_, ?_, ?_, hsr, hss⟩
    · rw [getField_mergeFields, hrrl, hpage2]
      simp [mergeVal_obj_obj]
    · rw [getField_mergeFields, hrc, h2c]
      simp [mergeVal_num_left]
      omega
    · rw [getField_mergeFields, hrn, h2n]
      simp [mergeVal_num_left]
      omega
    · rw [getField_mergeFields, hrr, h2r]
      simp [mergeVal_scalar_right _ _ hsr]
    · rw [getField_mergeFields, hrs, h2s]
      simp [mergeVal_scalar_right _ _ hss]

theorem graphAccum_rl (pages : List RLPage) :
    ∀ (acc : List (String × RTree)) (c n : Int) (r s0 : RTree),
      rlShape acc c n r s0 →
      (∀ p ∈ pages, rlShape p.d p.cost p.node p.remaining p.resetAt) →
      ∃ final, graphAccum true acc (pages.map (fun p => p.d)) = some final ∧
        rlShape final (c + (pages.map (fun p => p.cost)).sum)
          (n + (pages.map (fun p => p.node)).sum)
          ((pages.map (fun p => p.remaining)).getLastD r)
          ((pages.map (fun p => p.resetAt)).getLastD s0) := by
  induction pages with
  | nil =>
    intro acc c n r s0 ha _
    exact ⟨acc, rfl, by simpa using ha⟩
  | cons p ps ih =>
    intro acc c n r s0 ha hall
    have hp := hall p (List.mem_cons_self p ps)
    obtain ⟨res2, hstep, hres2⟩ := pageStep_rl hp ha
    have hrest : ∀ q ∈ ps, rlShape q.d q.cost q.node q.remaining q.resetAt :=
      fun q hq => hall q (List.mem_cons_of_mem p hq)
    obtain ⟨final, hacc, hfin⟩ := ih res2 (c + p.cost) (n + p.node)
      p.remaining p.resetAt hres2 hrest
    refine ⟨final, ?_, ?_⟩
    · rw [List.map_cons, graphAccum, List.foldlM_cons]
      rw [hstep]
      simpa [graphAccum] using hacc
    · rw [List.map_cons, List.map_cons, List.map_cons, List.map_cons,
        List.getLastD_cons, List.getLastD_cons, List.sum_cons, List.sum_cons]
      have e1 : c + (p.cost + (ps.map (fun p => p.cost)).sum) =
          c + p.cost + (ps.map (fun p => p.cost)).sum := by omega
      have e2 : n + (p.node + (ps.map (fun p => p.node)).sum) =
          n + p.node + (ps.map (fun p => p.node)).sum := by omega
      rw [e1, e2]
      exact hfin

/-- C5: rate-limit accounting.  With `rate_limit` on, after all pages are
merged the accumulated `rateLimit.cost` and `rateLimit.nodeCount` equal
the sums of those counters over all pages, while `rateLimit.remaining`
and `rateLimit.resetAt` hold the values of the last page.  The summation
is the explicit pre-merge step `bumpRL` for the rate-limit sub-tree only:
`merge_dicts` itself never sums numeric scalars — on a scalar conflict the
incoming value wins. -/
theorem rate_limit_counters_summed (first : RLPage) (rest : List RLPage)
    (h1 : rlShape first.d first.cost first.node first.remaining first.resetAt)
    (h2 : ∀ p ∈ rest, rlShape p.d p.cost p.node p.remaining p.resetAt) :
    (∃ final, graphAccum true first.d (rest.map (fun p => p.d)) = some final ∧
        rlShape final (first.cost + (rest.map (fun p => p.cost)).sum)
          (first.node + (rest.map (fun p => p.node)).sum)
          ((rest.map (fun p => p.remaining)).getLastD first.remaining)
          ((rest.map (fun p => p.resetAt)).getLastD first.resetAt)) ∧
      ∀ a b : Int, mergeVal (RTree.num a) (RTree.num b) = RTree.num b := by
  exact ⟨graphAccum_rl rest first.d first.cost first.node first.remaining
    first.resetAt h1 h2, fun a b => mergeVal_num_left a (RTree.num b)⟩

/-- C5 (witness): the rate-limit accumulation applied to two concrete
pages: costs 3 and 2 sum to 5, node counts 7 and 5 sum to 12, and
`remaining`/`resetAt` hold the last page's values. -/
theorem rate_limit_counters_summed_witness :
    ∃ final, graphAccum true
        [("rateLimit", RTree.obj [("cost", RTree.num 3), ("nodeCount", RTree.num 7),
          ("remaining", RTree.num 100), ("resetAt", RTree.str "t1")])]
        [[("rateLimit", RTree.obj [("cost", RTree.num 2), ("nodeCount", RTree.num 5),
          ("remaining", RTree.num 98), ("resetAt", RTree.str "t2")])]] = some final ∧
      rlShape final 5 12 (RTree.num 98) (RTree.str "t2") := by
  have hshape1 : rlShape
      [("rateLimit", RTree.obj [("cost", RTree.num 3), ("nodeCount", RTree.num 7),
        ("remaining", RTree.num 100), ("resetAt", RTree.str "t1")])]
      3 7 (RTree.num 100) (RTree.str "t1") :=
    ⟨[("cost", RTree.num 3), ("nodeCount", RTree.num 7),
      ("remaining", RTree.num 100), ("resetAt", RTree.str "t1")],
      rfl, rfl, rfl, rfl, rfl, rfl, rfl⟩
  have hshape2 : rlShape
      [("rateLimit", RTree.obj [("cost", RTree.num 2), ("nodeCount", RTree.num 5),
        ("remaining", RTree.num 98), ("resetAt", RTree.str "t2")])]
      2 5 (RTree.num 98) (RTree.str "t2") :=
    ⟨[("cost", RTree.num 2), ("nodeCount", RTree.num 5),
      ("remaining", RTree.num 98), ("resetAt", RTree.str "t2")],
      rfl, rfl, rfl, rfl, rfl, rfl, rfl⟩
  have hall : ∀ p ∈ [(⟨[("rateLimit", RTree.obj [("cost", RTree.num 2),
        ("nodeCount", RTree.num 5), ("remaining", RTree.num 98),
        ("resetAt", RTree.str "t2")])], 2, 5, RTree.num 98, RTree.str "t2"⟩ : RLPage)],
      rlShape p.d p.cost p.node p.remaining p.resetAt := by
    intro p hp
    rw [List.mem_singleton] at hp
    subst hp
    exact hshape2
  have h := (rate_limit_counters_summed
    ⟨[("rateLimit", RTree.obj [("cost", RTree.num 3), ("nodeCount", RTree.num 7),
      ("remaining", RTree.num 100), ("resetAt", RTree.str "t1")])],
      3, 7, RTree.num 100, RTree.str "t1"⟩
    [⟨[("rateLimit", RTree.obj [("cost", RTree.num 2), ("nodeCount", RTree.num 5),
      ("remaining", RTree.num 98), ("resetAt", RTree.str "t2")])],
      2, 5, RTree.num 98, RTree.str "t2"⟩] hshape1 hall).1
  simpa using h

/-- C9: if no graph fields were queued (the query's selection set is
empty), `GraphRequest.execute` returns the empty dict immediately, with
zero network round trips, regardless of the `rate_limit` flag; by
contrast a non-empty selection issues a first round trip (one round trip
when the pagination checks decline to continue). -/
theorem empty_query_returns_empty (rate_limit : Bool)
    (page : ℕ → List (String × RTree))
    (conts : ℕ → List (String × RTree) → Bool) (fuel : ℕ) :
    graphExecute [] rate_limit page conts fuel = some ([], 0) ∧
      ∀ (sel : List String), sel ≠ [] → conts 1 (page 0) = false →
        graphExecute sel rate_limit page conts (fuel + 1) = some (page 0, 1) := by
  constructor
  · rw [graphExecute, if_pos rfl]
  · intro sel hsel hc
    rw [graphExecute, if_neg hsel, graphLoop]
    simp [hc]

/-- C9 (witness): the empty-selection short-circuit and the non-empty
contrast at concrete inputs. -/
theorem empty_query_returns_empty_witness :
    graphExecute [] true (fun _ => [("a", RTree.num 1)]) (fun _ _ => false) 7 =
        some ([], 0) ∧
      graphExecute ["stargazerCount"] true (fun _ => [("a", RTree.num 1)])
        (fun _ _ => false) 3 = some ([("a", RTree.num 1)], 1) := by
  refine ⟨(empty_query_returns_empty true (fun _ => [("a", RTree.num 1)])
    (fun _ _ => false) 7).1, ?_⟩
  have h := (empty_query_returns_empty true (fun _ => [("a", RTree.num 1)])
    (fun _ _ => false) 2).2 ["stargazerCount"] (by simp) rfl
  simpa using h

end CrossdMetrics
